import Mathlib

/-!
Verification of the RAG chunking / embedding / ingestion / retrieval pipeline of
the JunitGeneratorAPI repository (`app/rag/ingestion.py`, `app/rag/retrieval.py`,
`app/controller/rag_ingestion_controller.py`).

The Python source is shallowly embedded as executable Lean definitions.
External collaborators (the `javalang` parser, the Ollama embedding provider,
the ChromaDB vector store) appear as oracle inputs or as definitions modelled
from their documented contracts; everything the repository itself computes is
translated directly from the source.  Floating-point vector components are
modelled as rationals: no claim depends on floating-point rounding, only on
vector lengths and on the zero vector.
-/

/-! ## Python string primitives

The source uses `str.splitlines`, `str.strip`, `"\n".join` and list slicing
(including negative indices).  These are modelled structurally so that the
kernel can evaluate them on concrete inputs.  `pySplitlines` models splitting
on `"\n"` only (the inputs in this development contain no `"\r"`). -/

/-- Python whitespace test used by `str.strip` (ASCII whitespace). -/
def pyIsSpace (c : Char) : Bool :=
  c = ' ' || c = '\t' || c = '\n' || c = '\r' || c = '\x0b' || c = '\x0c'

/-- Python `str.strip()`: remove leading and trailing whitespace. -/
def pyStrip (s : String) : String :=
  String.mk ((((s.toList.dropWhile pyIsSpace).reverse).dropWhile pyIsSpace).reverse)

/-- Helper for `pySplitlines`: split a character list at newline characters,
producing no trailing empty line (Python `str.splitlines` semantics). -/
def splitlinesAux (acc : List Char) : List Char → List (List Char)
  | [] => [acc]
  | c :: cs =>
    if c = '\n' then acc :: (if cs.isEmpty then [] else splitlinesAux [] cs)
    else splitlinesAux (acc ++ [c]) cs

/-- Python `str.splitlines()` (newline-only model). -/
def pySplitlines (s : String) : List String :=
  match s.toList with
  | [] => []
  | cs => (splitlinesAux [] cs).map String.mk

/-- Python `sep.join(parts)`. -/
def pyJoin (sep : String) : List String → String
  | [] => ""
  | x :: xs => xs.foldl (fun acc y => acc ++ sep ++ y) x

/-- Clamp a (possibly negative) Python slice index into `[0, len]`. -/
def pyBound (len : Nat) (i : Int) : Nat :=
  if i < 0 then (len + i).toNat else min i.toNat len

/-- Python list slicing `xs[a:b]`, with negative-index handling. -/
def pySlice {α : Type} (xs : List α) (a b : Int) : List α :=
  (xs.take (pyBound xs.length b)).drop (pyBound xs.length a)

/-! ## Data model

`ChunkMeta` is the metadata dictionary attached to every chunk
(`ingestion.py` lines 81-88, 98-104, 114-119): `start_line` / `end_line` are
optional because the `class`-typed chunks carry only `start_line` and the
`full_class` chunk carries neither. -/

structure ChunkMeta where
  project_id : String
  file_path : String
  type : String
  name : String
  start_line : Option Nat
  end_line : Option Nat
deriving DecidableEq

/-- A chunk as built by `parse_java_code`: id, text, metadata. -/
structure Chunk where
  id : String
  text : String
  metadata : ChunkMeta
deriving DecidableEq

/-- `str(uuid.uuid4())` modelled as a deterministic fresh-id supply: the
`n`-th id generated during a run.  Only the count (and distinctness) of ids is
consumed downstream. -/
def uuid4 (n : Nat) : String := "uuid-" ++ toString n

/-! ## The javalang parse tree (oracle input)

`javalang.parse.parse` is a third-party library.  Its output, as consumed by
`parse_java_code`, is a tree exposing (a) all `MethodDeclaration` nodes found
by `tree.filter` in traversal order, each with `name`, `position` and `body`
(a statement list of which only the length is read); (b) all
`ClassDeclaration` nodes, each with `name` and `position`; (c) `tree.types`,
the top-level type declarations, of which only `types[0].name` is read
(`hasattr` is modelled by `Option`).  `end_line_attr` models the
`getattr(node, 'end_line', …)` access: javalang never sets this attribute, so
real trees always carry `none` here.  A failed parse is the `none` oracle. -/

inductive JStatement
  | stmt
deriving DecidableEq

structure JPosition where
  line : Nat
deriving DecidableEq

structure MethodDeclaration where
  name : String
  position : Option JPosition
  body : Option (List JStatement)
  end_line_attr : Option Nat
deriving DecidableEq

structure ClassDeclaration where
  name : String
  position : Option JPosition
deriving DecidableEq

structure TypeDecl where
  name : Option String
deriving DecidableEq

structure JavaTree where
  methods : List MethodDeclaration
  classes : List ClassDeclaration
  types : List TypeDecl
deriving DecidableEq

/-- A Java file as produced by `list_java_files`, together with the javalang
oracle for its content (`none` = `javalang.parse.parse` raised). -/
structure JavaFile where
  path : String
  content : String
  parsed : Option JavaTree
deriving DecidableEq

/-! ## Embedding client (`OllamaEmbeddingFunction`)

The provider (`POST {OLLAMA_URL}/api/embeddings`) is an oracle
`String → ProviderResult`: either a successful response carrying the
`embedding` field, or any failure (timeout, non-success status, malformed
body, missing field) — all of which the source's `except` clause collapses
into the zero-vector fallback (`ingestion.py` lines 39-45).  `_embed_batch`
gathers the per-item results; since `_embed_single` never raises, the
`isinstance(r, Exception)` replacement is the identity and the batch is a
per-item map. -/

abbrev Vec := List Rat

inductive ProviderResult
  | ok (embedding : Vec)
  | failure
deriving DecidableEq

/-- `OllamaEmbeddingFunction._embed_single`: the provider's embedding on
success, `[0.0] * 768` on any failure. -/
def embed_single (provider : String → ProviderResult) (text : String) : Vec :=
  match provider text with
  | ProviderResult.ok v => v
  | ProviderResult.failure => List.replicate 768 0

/-- `OllamaEmbeddingFunction.__call__` / `_embed_batch`: one vector per input
text, in input order. -/
def ollama_ef (provider : String → ProviderResult) (input : List String) : List Vec :=
  input.map (embed_single provider)

/-! ## Source parser (`parse_java_code`, ingestion.py lines 60-123) -/

/-- `node.position.line if node.position else 0`. -/
def posLine (p : Option JPosition) : Nat :=
  match p with
  | some q => q.line
  | none => 0

/-- `getattr(node, 'end_line', start_line + (len(node.body) if node.body else 0))`
(ingestion.py line 73).  javalang sets no `end_line` attribute, so the
`getattr` default — start line plus the number of body statements — is the
fallback actually used. -/
def methodEndLine (node : MethodDeclaration) (start_line : Nat) : Nat :=
  node.end_line_attr.getD (start_line + (node.body.getD []).length)

/-- `"\n".join(lines[start_line - 1:end_line]).strip()` (ingestion.py line 74). -/
def methodBodyText (lines : List String) (start_line end_line : Nat) : String :=
  pyStrip (pyJoin "\n" (pySlice lines ((start_line : Int) - 1) (end_line : Int)))

/-- The method-chunk builder (ingestion.py lines 71-90): `none` when the
trimmed line-sliced body is empty (the `continue` branch).  The id is filled
in afterwards by `withIds`. -/
def methodChunkOf (lines : List String) (project_id file_path : String)
    (node : MethodDeclaration) : Option Chunk :=
  let start_line := posLine node.position
  let end_line := methodEndLine node start_line
  let body := methodBodyText lines start_line end_line
  if body = "" then none
  else some
    { id := ""
      text := body
      metadata :=
        { project_id := project_id
          file_path := file_path
          type := "method"
          name := node.name
          start_line := some start_line
          end_line := some end_line } }

/-- The class-chunk builder (ingestion.py lines 93-106). -/
def classChunkOf (project_id file_path : String) (node : ClassDeclaration) : Chunk :=
  { id := ""
    text := "class " ++ node.name ++ " \x7b /* methods omitted */ \x7d"
    metadata :=
      { project_id := project_id
        file_path := file_path
        type := "class"
        name := node.name
        start_line := some (posLine node.position)
        end_line := none } }

/-- The full-class chunk (ingestion.py lines 109-121): emitted only when
`tree.types` is nonempty, carrying the whole stripped source text and the
first top-level declaration's name (`"Unknown"` when absent). -/
def fullChunkOf (project_id file_path : String) (code : String) (t : TypeDecl) : Chunk :=
  { id := ""
    text := pyStrip code
    metadata :=
      { project_id := project_id
        file_path := file_path
        type := "full_class"
        name := t.name.getD "Unknown"
        start_line := none
        end_line := none } }

/-- Assign the run's fresh uuids to a chunk list, in emission order. -/
def withIds (fresh : Nat) (cs : List Chunk) : List Chunk :=
  cs.enum.map (fun p => { p.2 with id := uuid4 (fresh + p.1) })

/-- `parse_java_code(code, file_path, project_id)` (ingestion.py lines
60-123).  `parsed` is the javalang oracle for `code` (`none` = parse
exception, returning the empty chunk list); `fresh` is the uuid-supply
offset.  Emission order follows the source: method chunks, then class
chunks, then the single full-class chunk. -/
def parse_java_code (fresh : Nat) (code : String) (parsed : Option JavaTree)
    (file_path project_id : String) : List Chunk :=
  match parsed with
  | none => []
  | some tree =>
    let lines := pySplitlines code
    let methodChunks := tree.methods.filterMap (methodChunkOf lines project_id file_path)
    let classChunks := tree.classes.map (classChunkOf project_id file_path)
    let fullChunks :=
      match tree.types with
      | [] => []
      | t :: _ => [fullChunkOf project_id file_path code t]
    withIds fresh (methodChunks ++ classChunks ++ fullChunks)

/-- A one-class, one-method concrete source file used as a test input. -/
def exSrc : String :=
  "public class A \x7b\n  void foo() \x7b\n    int x = 1;\n  \x7d\n\x7d"

/-- The javalang tree of `exSrc`. -/
def exTree : JavaTree :=
  { methods := [{ name := "foo", position := some { line := 2 },
                  body := some [JStatement.stmt], end_line_attr := none }]
    classes := [{ name := "A", position := some { line := 1 } }]
    types := [{ name := some "A" }] }

/-! ## Vector index (ChromaDB collection, modelled from the spec)

The ChromaDB collection is an external store.  Its contract (spec section
4.3) is: `upsert` inserts or replaces entries keyed by id; `query` returns at
most `k` nearest neighbours under the similarity metric, restricted to
entries whose metadata satisfies the equality filter.  The similarity metric
is a parameter (`dist`); ranking uses a deterministic insertion sort. -/

/-- One stored entry of the collection. -/
structure Entry where
  id : String
  embedding : Vec
  document : String
  metadata : ChunkMeta
deriving DecidableEq

/-- Modelled from the spec: `upsert` on a single entry — replace the entry
with the same id if present, append otherwise. -/
def upsertOne (coll : List Entry) (e : Entry) : List Entry :=
  if coll.any (fun x => x.id == e.id) then
    coll.map (fun x => if x.id == e.id then e else x)
  else coll ++ [e]

/-- Pair up the four parallel argument lists of `collection.upsert` into
entries (truncating at the shortest, as `zip` does). -/
def zipEntries : List String → List Vec → List String → List ChunkMeta → List Entry
  | i :: is, v :: vs, d :: ds, m :: ms =>
    { id := i, embedding := v, document := d, metadata := m } :: zipEntries is vs ds ms
  | _, _, _, _ => []

/-- Modelled from the spec: `collection.upsert(ids, embeddings, documents,
metadatas)` — insert or replace each keyed entry in order. -/
def upsertMany (coll : List Entry) (ids : List String) (embs : List Vec)
    (docs : List String) (metas : List ChunkMeta) : List Entry :=
  (zipEntries ids embs docs metas).foldl upsertOne coll

/-- Deterministic insertion of `x` into `l` under the boolean order `le`. -/
def insortBy {α : Type} (le : α → α → Bool) (x : α) : List α → List α
  | [] => [x]
  | y :: ys => if le x y then x :: y :: ys else y :: insortBy le x ys

/-- Deterministic sort under the boolean order `le`. -/
def sortBy {α : Type} (le : α → α → Bool) (xs : List α) : List α :=
  xs.foldr (insortBy le) []

/-- Modelled from the spec: `collection.query(query_embeddings=[v],
n_results=k, where=\x7b"project_id": pid\x7d)` — the at most `k` entries whose
metadata satisfies the equality filter, ranked by distance to `v`. -/
def queryIndex (dist : Vec → Vec → Rat) (coll : List Entry) (v : Vec) (k : Nat)
    (pid : String) : List Entry :=
  (sortBy (fun a b => decide (dist v a.embedding ≤ dist v b.embedding))
    (coll.filter (fun e => e.metadata.project_id == pid))).take k

/-! ## Ingestion orchestrator (`ingest_project`)

The embed-and-upsert loop (ingestion.py lines 192-213 and the identical
controller loop, rag_ingestion_controller.py lines 192-209) slices the three
parallel lists `texts` / `ids` / `metadatas` with the same index ranges and
processes the batches strictly sequentially.  A per-batch oracle `fate`
injects the two possible failure points: the `ollama_ef(batch_texts)` call
raising, or `collection.upsert` raising; either aborts the run (the
exception propagates) with no commit for that batch.  The recursion is
structural on a fuel argument; the wrapper passes `texts.length`, which
bounds the batch count, so the fuel never runs out. -/

def BATCH_SIZE : Nat := 8

/-- The arguments of one `collection.upsert` call, as issued by the loop. -/
structure UpsertCall where
  ids : List String
  embeddings : List Vec
  documents : List String
  metadatas : List ChunkMeta
deriving DecidableEq

/-- Per-batch failure oracle: the batch succeeds, the embedding call raises,
or the upsert raises. -/
inductive BatchFate
  | ok
  | embedFail
  | upsertFail
deriving DecidableEq

/-- Result of the embed-and-upsert loop: the upsert calls issued, the final
collection state, and whether the loop ran to completion (`ok = false` models
the exception propagating out of the run). -/
structure LoopResult where
  calls : List UpsertCall
  coll : List Entry
  ok : Bool
deriving DecidableEq

def ingestBatchesAux (provider : String → ProviderResult) (fate : Nat → BatchFate) :
    Nat → Nat → List String → List String → List ChunkMeta → List Entry → LoopResult
  | _, _, [], _, _, coll => { calls := [], coll := coll, ok := true }
  | 0, _, _ :: _, _, _, coll => { calls := [], coll := coll, ok := true }
  | fuel + 1, n, t :: ts, ids, metas, coll =>
    let texts := t :: ts
    let batch_texts := texts.take BATCH_SIZE
    let batch_ids := ids.take BATCH_SIZE
    let batch_meta := metas.take BATCH_SIZE
    match fate n with
    | BatchFate.embedFail => { calls := [], coll := coll, ok := false }
    | BatchFate.upsertFail =>
      { calls := [{ ids := batch_ids, embeddings := ollama_ef provider batch_texts,
                    documents := batch_texts, metadatas := batch_meta }]
        coll := coll, ok := false }
    | BatchFate.ok =>
      let embeddings := ollama_ef provider batch_texts
      let coll2 := upsertMany coll batch_ids embeddings batch_texts batch_meta
      let r := ingestBatchesAux provider fate fuel (n + 1) (texts.drop BATCH_SIZE)
        (ids.drop BATCH_SIZE) (metas.drop BATCH_SIZE) coll2
      { calls := { ids := batch_ids, embeddings := embeddings,
                   documents := batch_texts, metadatas := batch_meta } :: r.calls
        coll := r.coll, ok := r.ok }

/-- The embed-and-upsert loop over the batch starts `0, 8, 16, …`. -/
def ingestBatches (provider : String → ProviderResult) (fate : Nat → BatchFate)
    (texts ids : List String) (metas : List ChunkMeta) (coll : List Entry) : LoopResult :=
  ingestBatchesAux provider fate texts.length 0 texts ids metas coll

/-- Lines 192-213 of ingestion.py: project the aggregated chunks onto the
three parallel lists and run the batch loop. -/
def ingestEmbedUpsert (provider : String → ProviderResult) (fate : Nat → BatchFate)
    (all_chunks : List Chunk) (coll : List Entry) : LoopResult :=
  ingestBatches provider fate (all_chunks.map (fun c => c.text))
    (all_chunks.map (fun c => c.id)) (all_chunks.map (fun c => c.metadata)) coll

/-- Chunk aggregation over the project's files (ingestion.py lines 176-184):
parse each file in turn, extending the chunk list; the uuid supply advances
by the number of chunks emitted so far. -/
def allChunksOf (files : List JavaFile) (project_id : String) : List Chunk :=
  files.foldl
    (fun acc jf => acc ++ parse_java_code acc.length jf.content jf.parsed jf.path project_id)
    []

/-- The environment of one ingestion run: the archive-extraction oracle, the
listed java files (with their javalang oracles), the provider and per-batch
failure oracles, and the initial collection state. -/
structure IngestEnv where
  zipPresent : Bool
  files : List JavaFile
  provider : String → ProviderResult
  fate : Nat → BatchFate
  coll : List Entry

/-- Run record of the background `ingest_project` (ingestion.py lines
156-215): the function returns `None` on every non-raising path, so the
success payload is `Unit`. -/
structure RagRun where
  calls : List UpsertCall
  coll : List Entry
  outcome : Except String Unit

/-- HTTP-level errors of the controller endpoints: an explicit
`HTTPException` or an unhandled exception propagating to the framework. -/
inductive HttpError
  | http (code : Nat) (message : String)
  | internal (message : String)
deriving DecidableEq

/-- The JSON responses of the `/rag/ingest/{project_id}` endpoint. -/
inductive IngestResponse
  | warning (message : String)
  | success (project_id : String) (files chunks : Nat)
deriving DecidableEq

/-- Run record of the controller `ingest_project` endpoint. -/
structure EndpointRun where
  calls : List UpsertCall
  coll : List Entry
  outcome : Except HttpError IngestResponse

/-- Background `ingest_project(project_id)` (ingestion.py lines 156-215):
missing zip raises; no java files or no chunks end the run early with a bare
`return`; a batch failure re-raises; otherwise the run completes.  Every
non-raising path returns `None`. -/
def ingest_project_rag (env : IngestEnv) (project_id : String) : RagRun :=
  if env.zipPresent = false then
    { calls := [], coll := env.coll, outcome := Except.error "ZIP not found" }
  else if env.files = [] then
    { calls := [], coll := env.coll, outcome := Except.ok () }
  else
    let all_chunks := allChunksOf env.files project_id
    if all_chunks = [] then
      { calls := [], coll := env.coll, outcome := Except.ok () }
    else
      let r := ingestEmbedUpsert env.provider env.fate all_chunks env.coll
      { calls := r.calls, coll := r.coll,
        outcome := if r.ok then Except.ok () else Except.error "Embedding/Upsert failed" }

/-- Controller `POST /rag/ingest/{project_id}`
(rag_ingestion_controller.py lines 172-216): 404 when the zip is missing,
400 when no java files are found, a warning JSON (with no chunk count) when
zero chunks were parsed, and a success JSON carrying the chunk count. -/
def ingest_project_endpoint (env : IngestEnv) (project_id : String) : EndpointRun :=
  if env.zipPresent = false then
    { calls := [], coll := env.coll,
      outcome := Except.error (HttpError.http 404 "ZIP file not found") }
  else if env.files = [] then
    { calls := [], coll := env.coll,
      outcome := Except.error (HttpError.http 400 "No .java files found in ZIP") }
  else
    let all_chunks := allChunksOf env.files project_id
    if all_chunks = [] then
      { calls := [], coll := env.coll,
        outcome := Except.ok (IngestResponse.warning "No code chunks parsed") }
    else
      let r := ingestEmbedUpsert env.provider env.fate all_chunks env.coll
      { calls := r.calls, coll := r.coll,
        outcome :=
          if r.ok then
            Except.ok (IngestResponse.success project_id env.files.length all_chunks.length)
          else Except.error (HttpError.internal "Embedding/Upsert failed") }

/-! ## Retrieval (`retrieve_code` endpoint and background `retrieve_context`)

Both functions additionally report the list of texts sent to the embedding
provider (the second component), so that "performs no embedding-provider
call" is a statement about the model. -/

/-- `f"\x7bmeta.get('start_line', '?')\x7d–\x7bmeta.get('end_line', '?')\x7d"`. -/
def lineRangeStr (m : ChunkMeta) : String :=
  (match m.start_line with | some n => toString n | none => "?")
    ++ "–"
    ++ (match m.end_line with | some n => toString n | none => "?")

/-- Python `round(x, 4)` on the model's rationals (round-half-up; the
half-even tie break of CPython is not load-bearing for any claim). -/
def pyRound4 (x : Rat) : Rat := (round (x * 10000) : Int) / 10000

/-- One formatted hit of the retrieve endpoint
(rag_ingestion_controller.py lines 238-249). -/
structure Hit where
  rank : Nat
  score : Rat
  type : String
  name : String
  file : String
  lines : String
  code : String
deriving DecidableEq

/-- The JSON response of the retrieve endpoint
(rag_ingestion_controller.py lines 251-256). -/
structure RetrieveResponse where
  project_id : String
  query : String
  results : List Hit
  total_hits : Nat
deriving DecidableEq

/-- Controller `POST /rag/retrieve/{project_id}`
(rag_ingestion_controller.py lines 219-256): strip the query, reject an
empty result with a 400 before any embedding call, otherwise embed the
stripped query as a one-item batch, query the index with `n_results=5` and
the project filter, and format the hits. -/
def retrieve_code (provider : String → ProviderResult) (dist : Vec → Vec → Rat)
    (coll : List Entry) (project_id rawQuery : String) :
    Except HttpError RetrieveResponse × List String :=
  let query := pyStrip rawQuery
  if query = "" then (Except.error (HttpError.http 400 "Query cannot be empty"), [])
  else
    let query_embedding := (ollama_ef provider [query]).headD []
    let results := queryIndex dist coll query_embedding 5 project_id
    let hits := results.enum.map (fun p =>
      { rank := p.1 + 1
        score := pyRound4 (dist query_embedding p.2.embedding)
        type := p.2.metadata.type
        name := p.2.metadata.name
        file := p.2.metadata.file_path
        lines := lineRangeStr p.2.metadata
        code := pyStrip p.2.document })
    (Except.ok { project_id := project_id, query := query,
                 results := hits, total_hits := hits.length }, [query])

/-- Background `retrieve_context(project_id, query, n_results)`
(retrieval.py lines 8-40): no query validation — the query is embedded
as given; an empty result set yields the empty string, otherwise the hits
are formatted as a concatenated provenance-annotated context string. -/
def retrieve_context (provider : String → ProviderResult) (dist : Vec → Vec → Rat)
    (coll : List Entry) (project_id query : String) (n_results : Nat) :
    String × List String :=
  let query_embedding := (ollama_ef provider [query]).headD []
  let results := queryIndex dist coll query_embedding n_results project_id
  if results = [] then ("", [query])
  else
    let parts := results.enum.map (fun p =>
      "// [" ++ toString (p.1 + 1) ++ "] " ++ p.2.metadata.name ++ " | "
        ++ p.2.metadata.file_path ++ ":" ++ lineRangeStr p.2.metadata
        ++ "\n" ++ pyStrip p.2.document ++ "\n")
    (pyJoin "\n" parts, [query])

/-! ## Spec-side definitions for refinement comparison -/

/-- Modelled from the spec: the brace-depth scan that spec section 4.1
describes as the fallback for method end-line resolution — walk the lines
from the declaration's opening line, add the opening braces and subtract the
closing braces of each line, and select the first line at which the
cumulative depth returns to zero or below (after at least one opening brace
has been seen), capping at the end of the file.  The source implements no
such scan (ingestion.py line 73). -/
def braceScanGo : List String → Nat → Int → Bool → Nat → Nat
  | [], _, _, _, total => total
  | l :: ls, ln, depth, seen, total =>
    let opens := (l.toList.filter (fun c => c = Char.ofNat 123)).length
    let closes := (l.toList.filter (fun c => c = Char.ofNat 125)).length
    let depth2 := depth + (opens : Int) - (closes : Int)
    let seen2 := seen || decide (0 < opens)
    if seen2 = true ∧ depth2 ≤ 0 then ln else braceScanGo ls (ln + 1) depth2 seen2 total

/-- Modelled from the spec: brace-scan end line for a declaration opening at
`start_line` (1-based), capped at the total line count. -/
def braceScanEnd (lines : List String) (start_line : Nat) : Nat :=
  braceScanGo (lines.drop (start_line - 1)) start_line 0 false lines.length

/-! ## Concrete test data for witnesses and counterexamples -/

/-- A provider that is down: every request fails. -/
def pfail : String → ProviderResult := fun _ => ProviderResult.failure

/-- A provider whose successful responses carry a length-1 embedding. -/
def pOne : String → ProviderResult := fun _ => ProviderResult.ok [1]

/-- A failure-free batch oracle. -/
def fateOk : Nat → BatchFate := fun _ => BatchFate.ok

/-- A batch oracle whose batch 0 succeeds and whose batch 1 upsert raises. -/
def fate9 : Nat → BatchFate := fun k => if k = 0 then BatchFate.ok else BatchFate.upsertFail

/-- A trivial similarity metric. -/
def dist0 : Vec → Vec → Rat := fun _ _ => 0

/-- Placeholder metadata for default values. -/
def meta0 : ChunkMeta :=
  { project_id := "p", file_path := "f", type := "method", name := "m",
    start_line := none, end_line := none }

/-- Default chunk (for `headD`). -/
def dChunk : Chunk := { id := "", text := "", metadata := meta0 }

/-- Default entry (for `headD`). -/
def dEntry : Entry := { id := "", embedding := [], document := "", metadata := meta0 }

/-- Default upsert call (for `headD`). -/
def dCall : UpsertCall := { ids := [], embeddings := [], documents := [], metadatas := [] }

/-- `exSrc` as a listed java file. -/
def exFile : JavaFile := { path := "A.java", content := exSrc, parsed := some exTree }

/-- Ingestion environment for `exFile` with a healthy run. -/
def envA : IngestEnv :=
  { zipPresent := true, files := [exFile], provider := pfail, fate := fateOk, coll := [] }

/-- A class-only source and tree (no methods): two chunks. -/
def treeB : JavaTree :=
  { methods := []
    classes := [{ name := "B", position := some { line := 1 } }]
    types := [{ name := some "B" }] }

/-- Ingestion environment whose single file parses to `treeB`. -/
def envB : IngestEnv :=
  { zipPresent := true
    files := [{ path := "B.java", content := "class B \x7b \x7d", parsed := some treeB }]
    provider := pfail, fate := fateOk, coll := [] }

/-- A well-formed compilation unit declaring no top-level type (for example
the source `"package a;"`, which javalang parses successfully into a tree
with empty `types`). -/
def emptyTree : JavaTree := { methods := [], classes := [], types := [] }

/-- A file whose structural parse fails. -/
def badFile : JavaFile := { path := "Bad.java", content := "not java", parsed := none }

/-- A six-line method whose braces close on line 6 while its body holds three
statements: the source's fallback yields end line 4, a brace scan yields 6. -/
def lines6 : List String := ["void f()", "\x7b", "a();", "b();", "c();", "\x7d"]

/-- The method declaration node for `lines6` / `src1`. -/
def m6 : MethodDeclaration :=
  { name := "f", position := some { line := 1 }
    body := some [JStatement.stmt, JStatement.stmt, JStatement.stmt]
    end_line_attr := none }

/-- A one-line source whose method has three body statements, driving the
fallback end line (4) past the total line count (1). -/
def src1 : String := "void f() \x7b a(); b(); c(); \x7d"

/-- A tree for `src1` containing just the method `m6`. -/
def t1 : JavaTree := { methods := [m6], classes := [], types := [{ name := some "A" }] }

/-- Nine chunks with distinct ids: two batches of the batch loop. -/
def c9chunks : List Chunk :=
  (List.range 9).map (fun i =>
    { id := "id" ++ toString i, text := "t" ++ toString i, metadata := meta0 })

/-- A single chunk for the upsert-call-shape witness. -/
def c10chunk : Chunk := { id := "a", text := "x", metadata := meta0 }

/-- A one-entry collection of project `"A"`. -/
def metaA : ChunkMeta :=
  { project_id := "A", file_path := "f", type := "method", name := "m",
    start_line := some 1, end_line := some 2 }

/-- The entry stored in `collA`. -/
def eA : Entry := { id := "e1", embedding := [1], document := "doc", metadata := metaA }

/-- A collection holding only `eA`. -/
def collA : List Entry := [eA]

/-- `exFile` rebound to project `"A"` for the isolation witness. -/
def exFileA : List JavaFile := [exFile]

/-- The upsert calls of the first `j` (all successful) batches of the loop,
as a specification-side mirror of the batch slicing: call `k` carries the
`k`-th fixed-size slices of the three parallel lists and their embeddings. -/
def expectedCalls (provider : String → ProviderResult) :
    Nat → List String → List String → List ChunkMeta → List UpsertCall
  | 0, _, _, _ => []
  | j + 1, texts, ids, metas =>
    { ids := ids.take BATCH_SIZE
      embeddings := ollama_ef provider (texts.take BATCH_SIZE)
      documents := texts.take BATCH_SIZE
      metadatas := metas.take BATCH_SIZE }
      :: expectedCalls provider j (texts.drop BATCH_SIZE) (ids.drop BATCH_SIZE)
          (metas.drop BATCH_SIZE)

/-! ## Helper lemmas -/

theorem map_enumFrom_snd {α β : Type} (g : α → β) :
    ∀ (n : Nat) (l : List α), (List.enumFrom n l).map (fun p => g p.2) = l.map g := by
  intro n l
  induction l generalizing n with
  | nil => rfl
  | cons a l ih => simp [List.enumFrom, ih]

theorem withIds_map {β : Type} (g : Chunk → β)
    (hg : ∀ (c : Chunk) (i : String), g { c with id := i } = g c)
    (fresh : Nat) (cs : List Chunk) : (withIds fresh cs).map g = cs.map g := by
  unfold withIds
  rw [List.map_map, List.enum]
  have h2 : (g ∘ fun p : Nat × Chunk => { p.2 with id := uuid4 (fresh + p.1) })
      = fun p : Nat × Chunk => g p.2 := by
    funext p; exact hg p.2 _
  rw [h2, map_enumFrom_snd]

theorem mem_withIds {c : Chunk} {fresh : Nat} {cs : List Chunk}
    (h : c ∈ withIds fresh cs) :
    ∃ d ∈ cs, c.text = d.text ∧ c.metadata = d.metadata := by
  unfold withIds at h
  obtain ⟨p, hp, rfl⟩ := List.mem_map.mp h
  refine ⟨p.2, ?_, rfl, rfl⟩
  have : p.2 ∈ (List.enumFrom 0 cs).map (fun q : Nat × Chunk => q.2) :=
    List.mem_map_of_mem _ hp
  rw [show ((fun q : Nat × Chunk => q.2) = fun q : Nat × Chunk => id q.2) from rfl,
    map_enumFrom_snd id 0 cs, List.map_id] at this
  exact this

theorem getLast?_map {α β : Type} (f : α → β) :
    ∀ l : List α, (l.map f).getLast? = (l.getLast?).map f := by
  intro l
  induction l with
  | nil => rfl
  | cons a l ih =>
    cases l with
    | nil => rfl
    | cons b t => simpa using ih

theorem mem_insortBy {α : Type} {le : α → α → Bool} {x a : α} :
    ∀ {l : List α}, a ∈ insortBy le x l → a = x ∨ a ∈ l := by
  intro l h
  induction l with
  | nil => simpa [insortBy] using h
  | cons y ys ih =>
    simp only [insortBy] at h
    by_cases hc : le x y
    · simp [hc] at h
      rcases h with h | h | h
      · exact Or.inl h
      · exact Or.inr (by simp [h])
      · exact Or.inr (by simp [h])
    · simp [hc] at h
      rcases h with h | h
      · exact Or.inr (by simp [h])
      · rcases ih h with h2 | h2
        · exact Or.inl h2
        · exact Or.inr (by simp [h2])

theorem mem_sortBy {α : Type} {le : α → α → Bool} {a : α} :
    ∀ {l : List α}, a ∈ sortBy le l → a ∈ l := by
  intro l h
  induction l with
  | nil => simpa [sortBy] using h
  | cons y ys ih =>
    have h2 : a ∈ insortBy le y (sortBy le ys) := h
    rcases mem_insortBy h2 with h3 | h3
    · simp [h3]
    · exact List.mem_cons_of_mem _ (ih h3)

theorem queryIndex_project_id {dist : Vec → Vec → Rat} {coll : List Entry} {v : Vec}
    {k : Nat} {pid : String} {e : Entry} (h : e ∈ queryIndex dist coll v k pid) :
    e.metadata.project_id = pid := by
  unfold queryIndex at h
  have h2 := mem_sortBy ((List.take_sublist _ _).subset h)
  have h3 := List.mem_filter.mp h2
  simpa using h3.2

theorem methodChunkOf_some {lines : List String} {project_id file_path : String}
    {node : MethodDeclaration} {c : Chunk}
    (h : methodChunkOf lines project_id file_path node = some c) :
    c = { id := ""
          text := methodBodyText lines (posLine node.position)
            (methodEndLine node (posLine node.position))
          metadata :=
            { project_id := project_id
              file_path := file_path
              type := "method"
              name := node.name
              start_line := some (posLine node.position)
              end_line := some (methodEndLine node (posLine node.position)) } } := by
  unfold methodChunkOf at h
  by_cases hb : methodBodyText lines (posLine node.position)
      (methodEndLine node (posLine node.position)) = ""
  · simp [hb] at h
  · simp [hb] at h
    exact h.symm

theorem parse_chunk_project_id {fresh : Nat} {code : String} {t : Option JavaTree}
    {fp pid : String} {c : Chunk} (h : c ∈ parse_java_code fresh code t fp pid) :
    c.metadata.project_id = pid := by
  cases t with
  | none => simp [parse_java_code] at h
  | some tree =>
    unfold parse_java_code at h
    obtain ⟨d, hd, _, hmeta⟩ := mem_withIds h
    rw [hmeta]
    rcases List.mem_append.mp hd with hd2 | hd2
    · rcases List.mem_append.mp hd2 with hd3 | hd3
      · obtain ⟨m, _, hm⟩ := List.mem_filterMap.mp hd3
        rw [methodChunkOf_some hm]
      · obtain ⟨k, _, hk⟩ := List.mem_map.mp hd3
        rw [← hk]; rfl
    · cases htypes : tree.types with
      | nil => rw [htypes] at hd2; simp at hd2
      | cons t0 ts =>
        rw [htypes] at hd2
        simp only [List.mem_singleton] at hd2
        rw [hd2]; rfl

theorem allChunksOf_project_id {files : List JavaFile} {pid : String} {c : Chunk}
    (h : c ∈ allChunksOf files pid) : c.metadata.project_id = pid := by
  unfold allChunksOf at h
  suffices h2 : ∀ (fs : List JavaFile) (acc : List Chunk),
      (∀ d ∈ acc, d.metadata.project_id = pid) →
      ∀ d ∈ fs.foldl
        (fun acc jf => acc ++ parse_java_code acc.length jf.content jf.parsed jf.path pid)
        acc, d.metadata.project_id = pid by
    exact h2 files [] (by simp) c h
  intro fs
  induction fs with
  | nil => intro acc hacc d hd; exact hacc d hd
  | cons f fs ih =>
    intro acc hacc d hd
    refine ih _ ?_ d hd
    intro e he
    rcases List.mem_append.mp he with he2 | he2
    · exact hacc e he2
    · exact parse_chunk_project_id he2

theorem length_filterMap_isSome {α β : Type} (f : α → Option β) :
    ∀ l : List α, (l.filterMap f).length = (l.filter (fun a => (f a).isSome)).length := by
  intro l
  induction l with
  | nil => rfl
  | cons a l ih =>
    cases hfa : f a with
    | none => simp [List.filterMap_cons, List.filter_cons, hfa, ih]
    | some b => simp [List.filterMap_cons, List.filter_cons, hfa, ih]

theorem map_const_replicate {α β : Type} {g : α → β} {b : β} :
    ∀ {l : List α}, (∀ a ∈ l, g a = b) → l.map g = List.replicate l.length b := by
  intro l h
  induction l with
  | nil => rfl
  | cons a l ih =>
    rw [List.map_cons, h a (List.mem_cons_self a l), List.length_cons,
      List.replicate_succ, ih (fun x hx => h x (List.mem_cons_of_mem a hx))]

theorem filter_enumFrom_length {α : Type} (q : α → Bool) :
    ∀ (n : Nat) (l : List α),
      ((List.enumFrom n l).filter (fun p => q p.2)).length = (l.filter q).length := by
  intro n l
  induction l generalizing n with
  | nil => rfl
  | cons a l ih =>
    simp only [List.enumFrom, List.filter_cons]
    by_cases hq : q a
    · simp [hq, ih]
    · simp [hq, ih]

theorem withIds_filter_length (p : ChunkMeta → Bool) (fresh : Nat) (cs : List Chunk) :
    ((withIds fresh cs).filter (fun c => p c.metadata)).length
      = (cs.filter (fun c => p c.metadata)).length := by
  unfold withIds
  rw [List.enum, List.filter_map, List.length_map]
  exact filter_enumFrom_length (fun c : Chunk => p c.metadata) 0 cs

theorem parse_types_map (fresh : Nat) (code : String) (tree : JavaTree) (fp pid : String) :
    (parse_java_code fresh code (some tree) fp pid).map (fun c => c.metadata.type)
      = List.replicate
          (tree.methods.filterMap (methodChunkOf (pySplitlines code) pid fp)).length "method"
        ++ List.replicate tree.classes.length "class"
        ++ List.replicate (if tree.types.isEmpty then 0 else 1) "full_class" := by
  obtain ⟨ms, cls, tys⟩ := tree
  have h1 : (ms.filterMap (methodChunkOf (pySplitlines code) pid fp)).map
        (fun c => c.metadata.type)
      = List.replicate
          (ms.filterMap (methodChunkOf (pySplitlines code) pid fp)).length
          "method" := by
    refine map_const_replicate ?_
    intro d hd
    obtain ⟨m, _, hm⟩ := List.mem_filterMap.mp hd
    rw [methodChunkOf_some hm]
  have h2 : (cls.map (classChunkOf pid fp)).map (fun c => c.metadata.type)
      = List.replicate cls.length "class" := by
    rw [List.map_map]
    exact map_const_replicate (fun a _ => rfl)
  cases tys with
  | nil =>
    simp only [parse_java_code]
    rw [withIds_map (fun c => c.metadata.type) (fun c i => rfl),
      List.map_append, List.map_append, h1, h2]
    simp
  | cons t0 ts =>
    simp only [parse_java_code]
    rw [withIds_map (fun c => c.metadata.type) (fun c i => rfl),
      List.map_append, List.map_append, h1, h2]
    simp [fullChunkOf]

theorem loop_calls_lengths (provider : String → ProviderResult) (fate : Nat → BatchFate) :
    ∀ (fuel n : Nat) (texts ids : List String) (metas : List ChunkMeta) (coll : List Entry),
      texts.length = ids.length → texts.length = metas.length →
      ∀ call ∈ (ingestBatchesAux provider fate fuel n texts ids metas coll).calls,
        call.ids.length = call.embeddings.length
          ∧ call.ids.length = call.documents.length
          ∧ call.ids.length = call.metadatas.length := by
  intro fuel
  induction fuel with
  | zero =>
    intro n texts ids metas coll h1 h2 call hc
    cases texts with
    | nil => simp [ingestBatchesAux] at hc
    | cons t ts => simp [ingestBatchesAux] at hc
  | succ fuel ih =>
    intro n texts ids metas coll h1 h2 call hc
    cases texts with
    | nil => simp [ingestBatchesAux] at hc
    | cons t ts =>
      cases hf : fate n with
      | embedFail => simp [ingestBatchesAux, hf] at hc
      | upsertFail =>
        simp [ingestBatchesAux, hf] at hc
        subst hc
        refine ⟨?_, ?_, ?_⟩ <;>
          simp [ollama_ef, List.length_take, ← h1, ← h2]
      | ok =>
        simp [ingestBatchesAux, hf] at hc
        rcases hc with hc | hc
        · subst hc
          refine ⟨?_, ?_, ?_⟩ <;>
            simp [ollama_ef, List.length_take, ← h1, ← h2]
        · exact ih (n + 1) ((t :: ts).drop BATCH_SIZE) (ids.drop BATCH_SIZE)
            (metas.drop BATCH_SIZE) _ (by simp [← h1]) (by simp [← h2]) call hc

theorem loop_allOk (provider : String → ProviderResult) (fate : Nat → BatchFate)
    (hfate : ∀ k, fate k = BatchFate.ok) :
    ∀ (fuel n : Nat) (texts ids : List String) (metas : List ChunkMeta) (coll : List Entry),
      (ingestBatchesAux provider fate fuel n texts ids metas coll).ok = true := by
  intro fuel
  induction fuel with
  | zero =>
    intro n texts ids metas coll
    cases texts with
    | nil => rfl
    | cons t ts => rfl
  | succ fuel ih =>
    intro n texts ids metas coll
    cases texts with
    | nil => rfl
    | cons t ts =>
      simp [ingestBatchesAux, hfate n]
      exact ih (n + 1) _ _ _ _

theorem zipEntries_map_id :
    ∀ (is : List String) (vs : List Vec) (ds : List String) (ms : List ChunkMeta),
      is.length = vs.length → is.length = ds.length → is.length = ms.length →
      (zipEntries is vs ds ms).map (fun e => e.id) = is := by
  intro is
  induction is with
  | nil => intro vs ds ms _ _ _; rfl
  | cons i is ih =>
    intro vs ds ms h1 h2 h3
    cases vs with
    | nil => simp at h1
    | cons v vs =>
      cases ds with
      | nil => simp at h2
      | cons d ds =>
        cases ms with
        | nil => simp at h3
        | cons m ms =>
          simp only [zipEntries, List.map_cons]
          rw [ih vs ds ms (by simpa using h1) (by simpa using h2) (by simpa using h3)]

theorem zipEntries_append :
    ∀ (a b : List String) (c d : List Vec) (e f : List String) (g h : List ChunkMeta),
      a.length = c.length → a.length = e.length → a.length = g.length →
      zipEntries (a ++ b) (c ++ d) (e ++ f) (g ++ h)
        = zipEntries a c e g ++ zipEntries b d f h := by
  intro a
  induction a with
  | nil =>
    intro b c d e f g h h1 h2 h3
    cases c with
    | nil =>
      cases e with
      | nil =>
        cases g with
        | nil => rfl
        | cons _ _ => simp at h3
      | cons _ _ => simp at h2
    | cons _ _ => simp at h1
  | cons a0 a ih =>
    intro b c d e f g h h1 h2 h3
    cases c with
    | nil => simp at h1
    | cons c0 c =>
      cases e with
      | nil => simp at h2
      | cons e0 e =>
        cases g with
        | nil => simp at h3
        | cons g0 g =>
          simp only [List.cons_append, zipEntries]
          exact congrArg _
            (ih b c d e f g h (by simpa using h1) (by simpa using h2) (by simpa using h3))

theorem foldl_upsertOne_fresh :
    ∀ (es coll : List Entry),
      (es.map (fun e => e.id)).Nodup →
      (∀ e ∈ es, ∀ x ∈ coll, x.id ≠ e.id) →
      es.foldl upsertOne coll = coll ++ es := by
  intro es
  induction es with
  | nil => intro coll _ _; simp
  | cons e es ih =>
    intro coll hnd hfr
    have hany : (coll.any (fun x => x.id == e.id)) = false := by
      rw [List.any_eq_false]
      intro x hx
      simp only [beq_iff_eq]
      exact hfr e (by simp) x hx
    have hstep : upsertOne coll e = coll ++ [e] := by
      simp [upsertOne, hany]
    have hnd2 : (es.map (fun e2 => e2.id)).Nodup := (List.nodup_cons.mp hnd).2
    have hnotmem : e.id ∉ es.map (fun e2 => e2.id) := (List.nodup_cons.mp hnd).1
    have hfr2 : ∀ e2 ∈ es, ∀ x ∈ coll ++ [e], x.id ≠ e2.id := by
      intro e2 he2 x hx
      rcases List.mem_append.mp hx with hx2 | hx2
      · exact hfr e2 (by simp [he2]) x hx2
      · have hx3 : x = e := by simpa using hx2
        rw [hx3]
        intro hcontra
        exact hnotmem (by rw [hcontra]; exact List.mem_map_of_mem _ he2)
    calc (e :: es).foldl upsertOne coll = es.foldl upsertOne (upsertOne coll e) := rfl
      _ = es.foldl upsertOne (coll ++ [e]) := by rw [hstep]
      _ = (coll ++ [e]) ++ es := ih (coll ++ [e]) hnd2 hfr2
      _ = coll ++ e :: es := by simp

theorem ollama_ef_append (provider : String → ProviderResult) (a b : List String) :
    ollama_ef provider (a ++ b) = ollama_ef provider a ++ ollama_ef provider b := by
  simp [ollama_ef]

theorem upsertMany_fresh (coll : List Entry) (is : List String) (vs : List Vec)
    (ds : List String) (ms : List ChunkMeta)
    (h1 : is.length = vs.length) (h2 : is.length = ds.length) (h3 : is.length = ms.length)
    (hnd : is.Nodup) (hfr : ∀ x ∈ coll, x.id ∉ is) :
    upsertMany coll is vs ds ms = coll ++ zipEntries is vs ds ms := by
  unfold upsertMany
  apply foldl_upsertOne_fresh
  · rw [zipEntries_map_id is vs ds ms h1 h2 h3]; exact hnd
  · intro e he x hx
    have hid : e.id ∈ is := by
      have hm := List.mem_map_of_mem (fun e2 : Entry => e2.id) he
      rwa [zipEntries_map_id is vs ds ms h1 h2 h3] at hm
    intro hc
    exact hfr x hx (hc ▸ hid)

theorem loopFailSpec (provider : String → ProviderResult) (fate : Nat → BatchFate) :
    ∀ (j fuel n : Nat) (texts ids : List String) (metas : List ChunkMeta) (coll : List Entry),
      texts.length ≤ fuel →
      texts.length = ids.length →
      texts.length = metas.length →
      ids.Nodup →
      (∀ e ∈ coll, e.id ∉ ids) →
      (∀ k, k < j → fate (n + k) = BatchFate.ok) →
      fate (n + j) ≠ BatchFate.ok →
      j * BATCH_SIZE < texts.length →
      ingestBatchesAux provider fate fuel n texts ids metas coll =
        { calls := expectedCalls provider j texts ids metas
            ++ (if fate (n + j) = BatchFate.upsertFail then
                  [{ ids := (ids.drop (j * BATCH_SIZE)).take BATCH_SIZE
                     embeddings :=
                       ollama_ef provider ((texts.drop (j * BATCH_SIZE)).take BATCH_SIZE)
                     documents := (texts.drop (j * BATCH_SIZE)).take BATCH_SIZE
                     metadatas := (metas.drop (j * BATCH_SIZE)).take BATCH_SIZE }]
                else [])
          coll := coll ++ zipEntries (ids.take (j * BATCH_SIZE))
              (ollama_ef provider (texts.take (j * BATCH_SIZE)))
              (texts.take (j * BATCH_SIZE)) (metas.take (j * BATCH_SIZE))
          ok := false } := by
  intro j
  induction j with
  | zero =>
    intro fuel n texts ids metas coll hfuel hlen1 hlen2 hnd hfr hok hfail hlt
    rw [Nat.zero_mul] at hlt
    cases texts with
    | nil => simp at hlt
    | cons t ts =>
      cases fuel with
      | zero => simp at hfuel
      | succ fuel =>
        rw [Nat.add_zero] at hfail
        cases hf : fate n with
        | ok => exact absurd hf hfail
        | embedFail =>
          simp [ingestBatchesAux, hf, expectedCalls, zipEntries, Nat.zero_mul]
        | upsertFail =>
          simp [ingestBatchesAux, hf, expectedCalls, zipEntries, Nat.zero_mul]
  | succ j ih =>
    intro fuel n texts ids metas coll hfuel hlen1 hlen2 hnd hfr hok hfail hlt
    have hpos : 0 < texts.length := lt_of_le_of_lt (Nat.zero_le _) hlt
    cases texts with
    | nil => simp at hpos
    | cons t ts =>
      cases fuel with
      | zero => simp at hfuel
      | succ fuel =>
        have hf0 : fate n = BatchFate.ok := by
          have := hok 0 (Nat.succ_pos j)
          rwa [Nat.add_zero] at this
        -- lengths of the head batch slices agree
        have hlenB1 : (ids.take BATCH_SIZE).length
            = (ollama_ef provider ((t :: ts).take BATCH_SIZE)).length := by
          simp [ollama_ef, List.length_take, ← hlen1]
        have hlenB2 : (ids.take BATCH_SIZE).length = ((t :: ts).take BATCH_SIZE).length := by
          simp [List.length_take, ← hlen1]
        have hlenB3 : (ids.take BATCH_SIZE).length = (metas.take BATCH_SIZE).length := by
          simp [List.length_take, ← hlen1, ← hlen2]
        -- the head batch's upsert appends fresh entries
        have hcoll2 : upsertMany coll (ids.take BATCH_SIZE)
            (ollama_ef provider ((t :: ts).take BATCH_SIZE))
            ((t :: ts).take BATCH_SIZE) (metas.take BATCH_SIZE)
            = coll ++ zipEntries (ids.take BATCH_SIZE)
                (ollama_ef provider ((t :: ts).take BATCH_SIZE))
                ((t :: ts).take BATCH_SIZE) (metas.take BATCH_SIZE) := by
          apply upsertMany_fresh _ _ _ _ _ hlenB1 hlenB2 hlenB3
          · exact (List.take_sublist _ _).nodup hnd
          · intro x hx hmem
            exact hfr x hx ((List.take_sublist _ _).subset hmem)
        -- take/drop of the id list are disjoint
        have hdisj : ∀ a, a ∈ ids.take BATCH_SIZE → a ∉ ids.drop BATCH_SIZE := by
          have h0 := hnd
          rw [← List.take_append_drop BATCH_SIZE ids] at h0
          have h1 := (List.nodup_append.mp h0).2.2
          exact fun a ha hb => h1 ha hb
        -- the recursive call via the induction hypothesis
        have hr := ih fuel (n + 1) ((t :: ts).drop BATCH_SIZE) (ids.drop BATCH_SIZE)
          (metas.drop BATCH_SIZE)
          (coll ++ zipEntries (ids.take BATCH_SIZE)
            (ollama_ef provider ((t :: ts).take BATCH_SIZE))
            ((t :: ts).take BATCH_SIZE) (metas.take BATCH_SIZE))
          (by
            have h2 : ts.length + 1 ≤ fuel + 1 := by simpa using hfuel
            simp only [List.length_drop, List.length_cons, BATCH_SIZE]
            omega)
          (by simp [List.length_drop, hlen1])
          (by simp [List.length_drop, hlen2])
          ((List.drop_sublist _ _).nodup hnd)
          (by
            intro e he hmem
            rcases List.mem_append.mp he with he2 | he2
            · exact hfr e he2 ((List.drop_sublist _ _).subset hmem)
            · have hid : e.id ∈ ids.take BATCH_SIZE := by
                have hm := List.mem_map_of_mem (fun e2 : Entry => e2.id) he2
                rwa [zipEntries_map_id _ _ _ _ hlenB1 hlenB2 hlenB3] at hm
              exact hdisj e.id hid hmem)
          (by
            intro k hk
            have h2 := hok (k + 1) (by omega)
            rwa [show n + (k + 1) = n + 1 + k from by omega] at h2)
          (by
            have h2 := hfail
            rwa [show n + (j + 1) = n + 1 + j from by omega] at h2)
          (by
            simp only [List.length_drop, List.length_cons]
            simp only [List.length_cons] at hlt
            have h2 : (j + 1) * BATCH_SIZE < ts.length + 1 := hlt
            simp only [BATCH_SIZE] at h2 ⊢
            omega)
        -- unfold one loop step
        have hmain : ingestBatchesAux provider fate (fuel + 1) n (t :: ts) ids metas coll
            = { calls :=
                  { ids := ids.take BATCH_SIZE
                    embeddings := ollama_ef provider ((t :: ts).take BATCH_SIZE)
                    documents := (t :: ts).take BATCH_SIZE
                    metadatas := metas.take BATCH_SIZE }
                  :: (ingestBatchesAux provider fate fuel (n + 1)
                      ((t :: ts).drop BATCH_SIZE) (ids.drop BATCH_SIZE)
                      (metas.drop BATCH_SIZE)
                      (upsertMany coll (ids.take BATCH_SIZE)
                        (ollama_ef provider ((t :: ts).take BATCH_SIZE))
                        ((t :: ts).take BATCH_SIZE) (metas.take BATCH_SIZE))).calls
                coll := (ingestBatchesAux provider fate fuel (n + 1)
                    ((t :: ts).drop BATCH_SIZE) (ids.drop BATCH_SIZE)
                    (metas.drop BATCH_SIZE)
                    (upsertMany coll (ids.take BATCH_SIZE)
                      (ollama_ef provider ((t :: ts).take BATCH_SIZE))
                      ((t :: ts).take BATCH_SIZE) (metas.take BATCH_SIZE))).coll
                ok := (ingestBatchesAux provider fate fuel (n + 1)
                    ((t :: ts).drop BATCH_SIZE) (ids.drop BATCH_SIZE)
                    (metas.drop BATCH_SIZE)
                    (upsertMany coll (ids.take BATCH_SIZE)
                      (ollama_ef provider ((t :: ts).take BATCH_SIZE))
                      ((t :: ts).take BATCH_SIZE) (metas.take BATCH_SIZE))).ok } := by
          simp only [ingestBatchesAux, hf0]
        rw [hmain, hcoll2, hr]
        -- assemble the calls component
        have hcalls :
            ({ ids := ids.take BATCH_SIZE
               embeddings := ollama_ef provider ((t :: ts).take BATCH_SIZE)
               documents := (t :: ts).take BATCH_SIZE
               metadatas := metas.take BATCH_SIZE } : UpsertCall)
              :: (expectedCalls provider j ((t :: ts).drop BATCH_SIZE) (ids.drop BATCH_SIZE)
                    (metas.drop BATCH_SIZE)
                  ++ (if fate (n + 1 + j) = BatchFate.upsertFail then
                        [{ ids := ((ids.drop BATCH_SIZE).drop (j * BATCH_SIZE)).take BATCH_SIZE
                           embeddings := ollama_ef provider
                             (((t :: ts).drop BATCH_SIZE |>.drop (j * BATCH_SIZE)).take BATCH_SIZE)
                           documents :=
                             (((t :: ts).drop BATCH_SIZE).drop (j * BATCH_SIZE)).take BATCH_SIZE
                           metadatas :=
                             ((metas.drop BATCH_SIZE).drop (j * BATCH_SIZE)).take BATCH_SIZE }]
                      else []))
            = expectedCalls provider (j + 1) (t :: ts) ids metas
              ++ (if fate (n + (j + 1)) = BatchFate.upsertFail then
                    [{ ids := (ids.drop ((j + 1) * BATCH_SIZE)).take BATCH_SIZE
                       embeddings := ollama_ef provider
                         (((t :: ts).drop ((j + 1) * BATCH_SIZE)).take BATCH_SIZE)
                       documents := ((t :: ts).drop ((j + 1) * BATCH_SIZE)).take BATCH_SIZE
                       metadatas := ((metas.drop ((j + 1) * BATCH_SIZE)).take BATCH_SIZE) }]
                  else []) := by
          rw [expectedCalls, List.cons_append]
          rw [show n + 1 + j = n + (j + 1) from by omega]
          simp only [List.drop_drop]
          simp only [show BATCH_SIZE + j * BATCH_SIZE = (j + 1) * BATCH_SIZE from by ring,
            show j * BATCH_SIZE + BATCH_SIZE = (j + 1) * BATCH_SIZE from by ring]
        rw [hcalls]
        -- assemble the collection component
        have htake : ∀ {α : Type} (l : List α),
            l.take ((j + 1) * BATCH_SIZE)
              = l.take BATCH_SIZE ++ (l.drop BATCH_SIZE).take (j * BATCH_SIZE) := by
          intro α l
          rw [show (j + 1) * BATCH_SIZE = BATCH_SIZE + j * BATCH_SIZE from by
            simp [Nat.succ_mul, Nat.add_comm]]
          rw [List.take_add]
        have hcoll3 :
            (coll ++ zipEntries (ids.take BATCH_SIZE)
                (ollama_ef provider ((t :: ts).take BATCH_SIZE))
                ((t :: ts).take BATCH_SIZE) (metas.take BATCH_SIZE))
              ++ zipEntries ((ids.drop BATCH_SIZE).take (j * BATCH_SIZE))
                (ollama_ef provider (((t :: ts).drop BATCH_SIZE).take (j * BATCH_SIZE)))
                (((t :: ts).drop BATCH_SIZE).take (j * BATCH_SIZE))
                ((metas.drop BATCH_SIZE).take (j * BATCH_SIZE))
            = coll ++ zipEntries (ids.take ((j + 1) * BATCH_SIZE))
                (ollama_ef provider ((t :: ts).take ((j + 1) * BATCH_SIZE)))
                ((t :: ts).take ((j + 1) * BATCH_SIZE))
                (metas.take ((j + 1) * BATCH_SIZE)) := by
          rw [List.append_assoc]
          congr 1
          rw [htake ids, htake (t :: ts), htake metas, ollama_ef_append,
            zipEntries_append _ _ _ _ _ _ _ _ hlenB1 hlenB2 hlenB3]
        rw [hcoll3]

theorem length_filter_replicate {α : Type} (p : α → Bool) (n : Nat) (a : α) :
    ((List.replicate n a).filter p).length = if p a then n else 0 := by
  induction n with
  | zero => simp
  | succ n ih =>
    by_cases hp : p a <;> simp [List.replicate_succ, List.filter_cons, hp, ih]

theorem filter_metadata_type_length (p : String → Bool) (l : List Chunk) :
    (l.filter (fun c => p c.metadata.type)).length
      = ((l.map (fun c => c.metadata.type)).filter p).length := by
  rw [List.filter_map, List.length_map]
  rfl

theorem getLast?_enumFrom_snd {α : Type} :
    ∀ (n : Nat) (l : List α), ((List.enumFrom n l).getLast?).map Prod.snd = l.getLast? := by
  intro n l
  induction l generalizing n with
  | nil => rfl
  | cons a l ih =>
    cases l with
    | nil => rfl
    | cons b t =>
      rw [show List.enumFrom n (a :: b :: t)
          = (n, a) :: (n + 1, b) :: List.enumFrom (n + 2) t from rfl]
      rw [List.getLast?_cons_cons, List.getLast?_cons_cons]
      exact ih (n + 1)

theorem withIds_getLast_concat (fresh : Nat) (l : List Chunk) (a : Chunk) :
    ∃ c, (withIds fresh (l ++ [a])).getLast? = some c
      ∧ c.text = a.text ∧ c.metadata = a.metadata := by
  unfold withIds
  rw [getLast?_map, List.enum]
  have hsnd := getLast?_enumFrom_snd 0 (l ++ [a])
  rw [List.getLast?_concat] at hsnd
  cases h : (List.enumFrom 0 (l ++ [a])).getLast? with
  | none => rw [h] at hsnd; simp at hsnd
  | some p =>
    rw [h] at hsnd
    have hp : p.2 = a := by simpa using hsnd
    exact ⟨{ p.2 with id := uuid4 (fresh + p.1) }, by simp, by rw [hp], by rw [hp]⟩

/-! ## Claim theorems -/

/-- C4: for every source text on which structural parsing fails,
`parse_java_code` returns an empty chunk list — and, the embedded function
being total, raises no exception; the failure is local to that file: an
ingestion run aggregating chunks over a file list containing the failing file
produces exactly the chunks of the remaining files. -/
theorem C4_parse_failure_local :
    (∀ (fresh : Nat) (code fp pid : String), parse_java_code fresh code none fp pid = [])
    ∧ ∀ (pid : String) (fs1 fs2 : List JavaFile) (f : JavaFile), f.parsed = none →
        allChunksOf (fs1 ++ f :: fs2) pid = allChunksOf (fs1 ++ fs2) pid := by
  constructor
  · intro fresh code fp pid; rfl
  · intro pid fs1 fs2 f hf
    unfold allChunksOf
    simp only [List.foldl_append, List.foldl_cons, hf]
    simp [parse_java_code]

/-- C4 witness: the concrete failing file `badFile` contributes nothing to a
run over `[exFile, badFile]`. -/
theorem C4_parse_failure_local_witness :
    badFile.parsed = none
    ∧ allChunksOf ([exFile] ++ badFile :: []) "p" = allChunksOf ([exFile] ++ []) "p" :=
  ⟨rfl, C4_parse_failure_local.2 "p" [exFile] [] badFile rfl⟩

/-- C2 counterexample: the embedding client passes successful provider
vectors through unchecked — with a provider answering a length-1 embedding,
the returned vector has length 1, not 768. -/
theorem C2_counterexample :
    ollama_ef pOne ["x"] = [[1]]
    ∧ ((ollama_ef pOne ["x"]).headD []).length = 1
    ∧ (1 : Nat) ≠ 768 := ⟨rfl, rfl, by decide⟩

/-- C2 (amended): the embedding batch always has the same length and order
as the input (one vector per text); every per-item provider failure yields
the 768-length zero vector; and every returned vector has length 768
provided every successful provider response carries a length-768 embedding
(the code does not itself enforce the dimension on success — see the
counterexample). -/
theorem C2_embed_batch_shape :
    ∀ (provider : String → ProviderResult) (input : List String),
      (ollama_ef provider input).length = input.length
      ∧ (∀ i : Nat, (ollama_ef provider input)[i]?
          = (input[i]?).map (embed_single provider))
      ∧ (∀ t : String, provider t = ProviderResult.failure →
          embed_single provider t = List.replicate 768 0)
      ∧ ((∀ t v, provider t = ProviderResult.ok v → v.length = 768) →
          ∀ w ∈ ollama_ef provider input, w.length = 768) := by
  intro provider input
  refine ⟨by simp [ollama_ef], ?_, ?_, ?_⟩
  · intro i; simp [ollama_ef]
  · intro t ht; simp [embed_single, ht]
  · intro hp w hw
    obtain ⟨t, _, rfl⟩ := List.mem_map.mp hw
    unfold embed_single
    cases hpt : provider t with
    | ok v => exact hp t v hpt
    | failure => exact List.length_replicate _ _

/-- C2 witness: a provider that is down yields a batch of the input's length
whose vectors all have length 768. -/
theorem C2_embed_batch_shape_witness :
    (∀ t v, pfail t = ProviderResult.ok v → v.length = 768)
    ∧ (ollama_ef pfail ["a", "b"]).length = 2
    ∧ ∀ w ∈ ollama_ef pfail ["a", "b"], w.length = 768 := by
  have h := C2_embed_batch_shape pfail ["a", "b"]
  exact ⟨fun t v hv => by simp [pfail] at hv, h.1.trans rfl,
    h.2.2.2 (fun t v hv => by simp [pfail] at hv)⟩

/-- C3 counterexample: the background retrieval operation `retrieve_context`
performs an embedding-provider call even for the empty query (the provider
trace is `[""]`) and returns normally instead of failing with an
invalid-input error. -/
theorem C3_counterexample :
    (retrieve_context pfail dist0 [] "p" "" 10).2 = [""]
    ∧ (retrieve_context pfail dist0 [] "p" "" 10).1 = "" := ⟨rfl, rfl⟩

/-- C3 (amended): the HTTP retrieve endpoint rejects an empty or
whitespace-only query with a 400 invalid-input error and performs no
embedding-provider call; the background `retrieve_context` performs no such
validation and embeds the query as given (see the counterexample). -/
theorem C3_empty_query_endpoint :
    ∀ (provider : String → ProviderResult) (dist : Vec → Vec → Rat) (coll : List Entry)
      (pid q : String), pyStrip q = "" →
      retrieve_code provider dist coll pid q
        = (Except.error (HttpError.http 400 "Query cannot be empty"), []) := by
  intro provider dist coll pid q hq
  simp [retrieve_code, hq]

/-- C3 witness: the endpoint rejects the whitespace-only query `"   "`
without calling the provider. -/
theorem C3_empty_query_endpoint_witness :
    pyStrip "   " = ""
    ∧ retrieve_code pfail dist0 [] "p" "   "
        = (Except.error (HttpError.http 400 "Query cannot be empty"), []) :=
  ⟨rfl, C3_empty_query_endpoint pfail dist0 [] "p" "   " rfl⟩

/-- C7 counterexample: the end-line fallback of the source is not a
brace-depth scan — on the six-line method `lines6` the source computes end
line 4 (start line plus three body statements) while the spec's brace scan
yields 6 — and the computed `end_line` can exceed the total line count: the
one-line source `src1` yields a method chunk with `end_line = 4`. -/
theorem C7_counterexample :
    methodEndLine m6 (posLine m6.position) = 4
    ∧ braceScanEnd lines6 (posLine m6.position) = 6
    ∧ (4 : Nat) ≠ 6
    ∧ ((parse_java_code 0 src1 (some t1) "A.java" "p").head?).map
        (fun c => c.metadata.end_line) = some (some 4)
    ∧ (pySplitlines src1).length = 1
    ∧ ¬ (4 : Nat) ≤ 1 := by
  exact ⟨rfl, by decide, by decide, by decide, by decide, by decide⟩

/-- C7 (amended): when the parse tree exposes no explicit end position, the
fallback end line is the start line plus the number of body statements (zero
when the body is absent); an explicit end position, when present, is used
as-is; the computation is total, and the method-text line slice is always a
sublist of the file's lines (capped at end of file) — but the `end_line`
value itself may exceed the total line count (see the counterexample). -/
theorem C7_end_line_fallback :
    (∀ (node : MethodDeclaration) (s : Nat), node.end_line_attr = none →
        methodEndLine node s = s + (node.body.getD []).length)
    ∧ (∀ (node : MethodDeclaration) (s e : Nat), node.end_line_attr = some e →
        methodEndLine node s = e)
    ∧ ∀ (lines : List String) (a b : Int), (pySlice lines a b).Sublist lines := by
  refine ⟨?_, ?_, ?_⟩
  · intro node s h; simp [methodEndLine, h]
  · intro node s e h; simp [methodEndLine, h]
  · intro lines a b
    exact (List.drop_sublist _ _).trans (List.take_sublist _ _)

/-- C7 witness: the fallback applies to the concrete method node `m6`. -/
theorem C7_end_line_fallback_witness :
    m6.end_line_attr = none
    ∧ methodEndLine m6 1 = 1 + (m6.body.getD []).length :=
  ⟨rfl, C7_end_line_fallback.1 m6 1 rfl⟩

/-- C5 counterexample: on a one-class, one-method unit the parser emits the
chunk types `["method", "class", "full_class"]` in that order — the first
chunk is a method chunk rather than a full-unit chunk, and the `"class"`
chunk's type is neither `"method"` nor the spec's `"full_unit"`. -/
theorem C5_counterexample :
    (parse_java_code 0 exSrc (some exTree) "A.java" "p").map (fun c => c.metadata.type)
      = ["method", "class", "full_class"]
    ∧ ¬ ("class" = "method" ∨ "class" = "full_unit") := ⟨by decide, by decide⟩

/-- C5 (amended): on every successful parse the emitted chunk types are, in
order, first one `"method"` chunk per method declaration surviving the
empty-body filter, then one `"class"` summary chunk per class declaration,
then at most one `"full_class"` chunk — present exactly when the unit
declares a top-level type; that final full-unit chunk carries the entire
stripped source text and is tagged with the first top-level declaration's
name (`"Unknown"` when absent). -/
theorem C5_emission_order :
    ∀ (fresh : Nat) (code : String) (tree : JavaTree) (fp pid : String),
      ((parse_java_code fresh code (some tree) fp pid).map (fun c => c.metadata.type)
        = List.replicate
            (tree.methods.filterMap (methodChunkOf (pySplitlines code) pid fp)).length
            "method"
          ++ List.replicate tree.classes.length "class"
          ++ List.replicate (if tree.types.isEmpty then 0 else 1) "full_class")
      ∧ ∀ t ts, tree.types = t :: ts →
          ∃ c, (parse_java_code fresh code (some tree) fp pid).getLast? = some c
            ∧ c.metadata.type = "full_class"
            ∧ c.text = pyStrip code
            ∧ c.metadata.name = t.name.getD "Unknown" := by
  intro fresh code tree fp pid
  constructor
  · exact parse_types_map fresh code tree fp pid
  · intro t ts htys
    have hbase : parse_java_code fresh code (some tree) fp pid
        = withIds fresh ((tree.methods.filterMap (methodChunkOf (pySplitlines code) pid fp)
            ++ tree.classes.map (classChunkOf pid fp)) ++ [fullChunkOf pid fp code t]) := by
      simp only [parse_java_code, htys]
    rw [hbase]
    obtain ⟨c, hc1, hc2, hc3⟩ := withIds_getLast_concat fresh
      (tree.methods.filterMap (methodChunkOf (pySplitlines code) pid fp)
        ++ tree.classes.map (classChunkOf pid fp)) (fullChunkOf pid fp code t)
    exact ⟨c, hc1, by rw [hc3]; rfl, by rw [hc2]; rfl, by rw [hc3]; rfl⟩

/-- C5 witness: on `exSrc` / `exTree` the final chunk is the full-unit chunk
tagged "A". -/
theorem C5_emission_order_witness :
    exTree.types = ({ name := some "A" } : TypeDecl) :: []
    ∧ ∃ c, (parse_java_code 0 exSrc (some exTree) "A.java" "p").getLast? = some c
        ∧ c.metadata.type = "full_class"
        ∧ c.text = pyStrip exSrc
        ∧ c.metadata.name = ({ name := some "A" } : TypeDecl).name.getD "Unknown" :=
  ⟨rfl, (C5_emission_order 0 exSrc exTree "A.java" "p").2 { name := some "A" } [] rfl⟩

/-- C6 counterexample: a well-formed unit declaring no top-level type (for
example `"package a;"`, which javalang parses successfully into a tree with
empty `types`) yields no chunks at all — in particular no full-unit chunk,
contradicting the claim's "at least one full-unit chunk" for that input. -/
theorem C6_counterexample :
    parse_java_code 0 "package a;" (some emptyTree) "A.java" "p" = []
    ∧ ¬ (1 : Nat) ≤ (parse_java_code 0 "package a;" (some emptyTree) "A.java" "p").length :=
  ⟨by decide, by decide⟩

/-- C6 (amended): for every successfully parsed source whose tree declares
at least one top-level type (true of every unit that contains a method) and
whose method nodes expose no end-line attribute (javalang never sets one),
the parser emits exactly one method chunk per method declaration surviving
the empty-body filter, exactly one full-unit chunk, and every method chunk
satisfies `start_line ≤ end_line`. -/
theorem C6_method_chunk_count :
    ∀ (fresh : Nat) (code : String) (tree : JavaTree) (fp pid : String),
      (∀ m ∈ tree.methods, m.end_line_attr = none) →
      tree.types ≠ [] →
      ((parse_java_code fresh code (some tree) fp pid).filter
          (fun c => c.metadata.type == "method")).length
        = (tree.methods.filter
            (fun m => (methodChunkOf (pySplitlines code) pid fp m).isSome)).length
      ∧ ((parse_java_code fresh code (some tree) fp pid).filter
          (fun c => c.metadata.type == "full_class")).length = 1
      ∧ ∀ c ∈ parse_java_code fresh code (some tree) fp pid,
          c.metadata.type = "method" →
          ∃ s e, c.metadata.start_line = some s ∧ c.metadata.end_line = some e ∧ s ≤ e := by
  intro fresh code tree fp pid hattr htys
  have hne : tree.types.isEmpty = false := by
    cases h2 : tree.types with
    | nil => exact absurd h2 htys
    | cons a b => rfl
  have htm := parse_types_map fresh code tree fp pid
  refine ⟨?_, ?_, ?_⟩
  · rw [filter_metadata_type_length (fun t2 => t2 == "method"), htm]
    rw [List.filter_append, List.filter_append, List.length_append, List.length_append]
    rw [length_filter_replicate, length_filter_replicate, length_filter_replicate]
    rw [length_filterMap_isSome]
    simp
  · rw [filter_metadata_type_length (fun t2 => t2 == "full_class"), htm]
    rw [List.filter_append, List.filter_append, List.length_append, List.length_append]
    rw [length_filter_replicate, length_filter_replicate, length_filter_replicate]
    simp [hne]
  · intro c hc htype
    simp only [parse_java_code] at hc
    obtain ⟨d, hd, _, hmeta⟩ := mem_withIds hc
    have hdtype : d.metadata.type = "method" := by rw [← hmeta]; exact htype
    rcases List.mem_append.mp hd with hd2 | hd2
    · rcases List.mem_append.mp hd2 with hd3 | hd3
      · obtain ⟨m, hm, hdm⟩ := List.mem_filterMap.mp hd3
        have hde := methodChunkOf_some hdm
        refine ⟨posLine m.position, methodEndLine m (posLine m.position),
          by rw [hmeta, hde], by rw [hmeta, hde], ?_⟩
        rw [methodEndLine, hattr m hm]
        exact Nat.le_add_right _ _
      · obtain ⟨k, _, hk⟩ := List.mem_map.mp hd3
        rw [← hk] at hdtype
        exact absurd hdtype (by simp [classChunkOf])
    · cases h2 : tree.types with
      | nil => rw [h2] at hd2; simp at hd2
      | cons t0 ts0 =>
        rw [h2] at hd2
        simp only [List.mem_singleton] at hd2
        rw [hd2] at hdtype
        exact absurd hdtype (by simp [fullChunkOf])

/-- C6 witness: on `exSrc` / `exTree` the method-chunk count matches the
surviving method declarations. -/
theorem C6_method_chunk_count_witness :
    (∀ m ∈ exTree.methods, m.end_line_attr = none)
    ∧ exTree.types ≠ []
    ∧ ((parse_java_code 0 exSrc (some exTree) "A.java" "p").filter
        (fun c => c.metadata.type == "method")).length
      = (exTree.methods.filter
          (fun m => (methodChunkOf (pySplitlines exSrc) "p" "A.java" m).isSome)).length :=
  ⟨by decide, by decide,
    (C6_method_chunk_count 0 exSrc exTree "A.java" "p" (by decide) (by decide)).1⟩

/-- C1: project-namespace isolation — every entry returned by the
project-filtered index query carries the requesting project id, every chunk
built by the parser carries the project id under ingestion, and so does
every chunk aggregated by an ingestion run. -/
theorem C1_project_isolation :
    (∀ (dist : Vec → Vec → Rat) (coll : List Entry) (v : Vec) (k : Nat) (P : String)
        (e : Entry), e ∈ queryIndex dist coll v k P → e.metadata.project_id = P)
    ∧ (∀ (fresh : Nat) (code : String) (t : Option JavaTree) (fp P : String) (c : Chunk),
        c ∈ parse_java_code fresh code t fp P → c.metadata.project_id = P)
    ∧ ∀ (files : List JavaFile) (P : String) (c : Chunk),
        c ∈ allChunksOf files P → c.metadata.project_id = P :=
  ⟨fun _ _ _ _ _ _ h => queryIndex_project_id h,
   fun _ _ _ _ _ _ h => parse_chunk_project_id h,
   fun _ _ _ h => allChunksOf_project_id h⟩

/-- C1 witness: concrete instantiations of all three isolation facts. -/
theorem C1_project_isolation_witness :
    ((queryIndex dist0 collA [1] 5 "A").headD dEntry ∈ queryIndex dist0 collA [1] 5 "A")
    ∧ ((queryIndex dist0 collA [1] 5 "A").headD dEntry).metadata.project_id = "A"
    ∧ ((parse_java_code 0 exSrc (some exTree) "A.java" "A").headD dChunk
        ∈ parse_java_code 0 exSrc (some exTree) "A.java" "A")
    ∧ ((parse_java_code 0 exSrc (some exTree) "A.java" "A").headD dChunk).metadata.project_id
        = "A"
    ∧ ((allChunksOf exFileA "A").headD dChunk ∈ allChunksOf exFileA "A")
    ∧ ((allChunksOf exFileA "A").headD dChunk).metadata.project_id = "A" :=
  ⟨by decide, C1_project_isolation.1 dist0 collA [1] 5 "A" _ (by decide),
   by decide, C1_project_isolation.2.1 0 exSrc (some exTree) "A.java" "A" _ (by decide),
   by decide, C1_project_isolation.2.2 exFileA "A" _ (by decide)⟩

/-- C10: every upsert call issued by the ingestion loop passes four lists —
ids, embeddings, documents, metadatas — of equal length: the batch slices
are taken with identical ranges from parallel projections of the same chunk
list, and the embedding batch is length-preserving, so the vector index's
equal-length precondition holds on every call. -/
theorem C10_upsert_lists_aligned :
    ∀ (provider : String → ProviderResult) (fate : Nat → BatchFate)
      (all_chunks : List Chunk) (coll : List Entry) (call : UpsertCall),
      call ∈ (ingestEmbedUpsert provider fate all_chunks coll).calls →
      call.ids.length = call.embeddings.length
        ∧ call.ids.length = call.documents.length
        ∧ call.ids.length = call.metadatas.length := by
  intro provider fate all_chunks coll call hc
  unfold ingestEmbedUpsert ingestBatches at hc
  exact loop_calls_lengths provider fate _ 0 _ _ _ coll (by simp) (by simp) call hc

set_option maxRecDepth 100000 in
/-- C10 witness: the single call of a one-chunk run has aligned lists. -/
theorem C10_upsert_lists_aligned_witness :
    ((ingestEmbedUpsert pfail fateOk [c10chunk] []).calls.headD dCall
        ∈ (ingestEmbedUpsert pfail fateOk [c10chunk] []).calls)
    ∧ ((ingestEmbedUpsert pfail fateOk [c10chunk] []).calls.headD dCall).ids.length
        = ((ingestEmbedUpsert pfail fateOk [c10chunk] []).calls.headD dCall).embeddings.length :=
  ⟨by decide, (C10_upsert_lists_aligned pfail fateOk [c10chunk] [] _ (by decide)).1⟩

/-- C9: the ingestion loop processes the chunk list in fixed-size batches of
`BATCH_SIZE` strictly sequentially; when the first failing batch is batch
`j` (its embedding call or its upsert raises), the run aborts (`ok = false`,
which the orchestrator surfaces as an error), the issued upsert calls are
exactly those of batches `0..j-1` — plus the failing call itself when the
upsert raised — and the final collection state is the initial state plus
precisely the entries of the batches before `j`: earlier batches remain
committed, nothing of batch `j` or later is. -/
theorem C9_batch_failure_abort :
    ∀ (provider : String → ProviderResult) (fate : Nat → BatchFate)
      (all_chunks : List Chunk) (coll : List Entry) (j : Nat),
      (all_chunks.map (fun c => c.id)).Nodup →
      (∀ e ∈ coll, e.id ∉ all_chunks.map (fun c => c.id)) →
      (∀ k, k < j → fate k = BatchFate.ok) →
      fate j ≠ BatchFate.ok →
      j * BATCH_SIZE < all_chunks.length →
      ingestEmbedUpsert provider fate all_chunks coll =
        { calls := expectedCalls provider j (all_chunks.map (fun c => c.text))
              (all_chunks.map (fun c => c.id)) (all_chunks.map (fun c => c.metadata))
            ++ (if fate j = BatchFate.upsertFail then
                  [{ ids := ((all_chunks.map (fun c => c.id)).drop (j * BATCH_SIZE)).take
                       BATCH_SIZE
                     embeddings := ollama_ef provider
                       (((all_chunks.map (fun c => c.text)).drop (j * BATCH_SIZE)).take
                         BATCH_SIZE)
                     documents := ((all_chunks.map (fun c => c.text)).drop
                       (j * BATCH_SIZE)).take BATCH_SIZE
                     metadatas := ((all_chunks.map (fun c => c.metadata)).drop
                       (j * BATCH_SIZE)).take BATCH_SIZE }]
                else [])
          coll := coll ++ zipEntries
              ((all_chunks.map (fun c => c.id)).take (j * BATCH_SIZE))
              (ollama_ef provider ((all_chunks.map (fun c => c.text)).take (j * BATCH_SIZE)))
              ((all_chunks.map (fun c => c.text)).take (j * BATCH_SIZE))
              ((all_chunks.map (fun c => c.metadata)).take (j * BATCH_SIZE))
          ok := false } := by
  intro provider fate all_chunks coll j hnd hfr hok hfail hlt
  unfold ingestEmbedUpsert ingestBatches
  have h := loopFailSpec provider fate j (all_chunks.map (fun c => c.text)).length 0
    (all_chunks.map (fun c => c.text)) (all_chunks.map (fun c => c.id))
    (all_chunks.map (fun c => c.metadata)) coll (le_refl _) (by simp) (by simp) hnd hfr
    (fun k hk => by rw [Nat.zero_add]; exact hok k hk)
    (by rw [Nat.zero_add]; exact hfail)
    (by simpa using hlt)
  rw [Nat.zero_add] at h
  exact h

/-- C9 witness: a nine-chunk run (two batches) whose second batch's upsert
raises. -/
theorem C9_batch_failure_abort_witness :
    (c9chunks.map (fun c => c.id)).Nodup
    ∧ fate9 1 ≠ BatchFate.ok
    ∧ 1 * BATCH_SIZE < c9chunks.length
    ∧ (ingestEmbedUpsert pfail fate9 c9chunks []).ok = false := by
  refine ⟨by decide, by decide, by decide, ?_⟩
  have h := C9_batch_failure_abort pfail fate9 c9chunks [] 1 (by decide) (by simp)
    (fun k hk => by
      have h2 : k = 0 := by omega
      rw [h2]; rfl)
    (by decide) (by decide)
  rw [h]

/-- C8 counterexample: the background `ingest_project` returns `None` on
every non-raising path — two runs totalling 3 and 2 chunks respectively both
return the same bare success value, so the return value does not carry the
run's chunk count. -/
theorem C8_counterexample :
    (ingest_project_rag envA "p").outcome = Except.ok ()
    ∧ (ingest_project_rag envB "p").outcome = Except.ok ()
    ∧ (allChunksOf envA.files "p").length = 3
    ∧ (allChunksOf envB.files "p").length = 2
    ∧ (3 : Nat) ≠ 2 := by
  exact ⟨rfl, rfl, by decide, by decide, by decide⟩

/-- C8 (amended): the ingest endpoint returns a success response carrying
the total chunk count when at least one chunk was parsed and every batch
succeeds; when java files exist but zero chunks result, the run ends early —
no upsert call is issued — with a non-error warning response that carries no
count; the background `ingest_project` returns no chunk count on any path
(see the counterexample). -/
theorem C8_ingest_return :
    ∀ (env : IngestEnv) (pid : String),
      env.zipPresent = true →
      env.files ≠ [] →
      (allChunksOf env.files pid ≠ [] → (∀ k, env.fate k = BatchFate.ok) →
          (ingest_project_endpoint env pid).outcome
            = Except.ok (IngestResponse.success pid env.files.length
                (allChunksOf env.files pid).length))
      ∧ (allChunksOf env.files pid = [] →
          (ingest_project_endpoint env pid).outcome
            = Except.ok (IngestResponse.warning "No code chunks parsed")
          ∧ (ingest_project_endpoint env pid).calls = []) := by
  intro env pid hzip hfiles
  constructor
  · intro hchunks hfate
    have hok : (ingestEmbedUpsert env.provider env.fate (allChunksOf env.files pid)
        env.coll).ok = true := by
      unfold ingestEmbedUpsert ingestBatches
      exact loop_allOk env.provider env.fate hfate _ 0 _ _ _ _
    simp [ingest_project_endpoint, hzip, hfiles, hchunks, hok]
  · intro hchunks
    constructor <;> simp [ingest_project_endpoint, hzip, hfiles, hchunks]

/-- C8 witness: the healthy run over `exFile` reports its 3 chunks. -/
theorem C8_ingest_return_witness :
    envA.zipPresent = true
    ∧ envA.files ≠ []
    ∧ allChunksOf envA.files "p" ≠ []
    ∧ (ingest_project_endpoint envA "p").outcome
        = Except.ok (IngestResponse.success "p" envA.files.length
            (allChunksOf envA.files "p").length) :=
  ⟨rfl, by decide, by decide,
    (C8_ingest_return envA "p" rfl (by decide)).1 (by decide) (fun k => rfl)⟩
